import Mathlib

/-!
Verification development for the campground retrieval engine.

The repository's visible source is `src/app.py`, a thin FastAPI façade: it
declares the Pydantic request/response models (`SearchQuery`, `PriceItem`,
`KemahResponse`) and a `/search` endpoint that calls
`mesin_pencari.analyze_full_query` followed by
`mesin_pencari.search_by_keyword`.  The engine modules (`mesin_pencari`,
`preprocessing`, `utils`) are not part of the visible source, so every
engine-side definition below is modelled from the specification's component
contracts (query analyzer, TF-IDF vector-space ranker, result assembler);
each such definition says so in its doc comment.  The Pydantic data model is
translated directly from `src/app.py`.

All arithmetic is exact.  Cosine similarity is represented by its square,
an exact rational; on vectors with non-negative weights cosine lies in
`[0, 1]`, where squaring is strictly monotone, so the squared score is
order-isomorphic to cosine: it induces the same ranking order, the same
ties, and `cos = 1 ↔ cos² = 1`.  The squared score is carried as an
unreduced fraction of naturals (`Score`), compared by cross-multiplication;
`Score.q` is its rational value, used in the statements.  Cosine similarity
is invariant under scaling all term weights by one positive constant, so
the TF-IDF weights are scaled once by the product of all document
frequencies, making every weight a natural number.
-/

/-- A similarity score, an exact unreduced fraction `num / den` of
naturals (the float of the original API is replaced by this exact
representation).  A zero denominator only arises for zero vectors, where
the numerator is zero as well; such a score denotes 0. -/
structure Score where
  num : ℕ
  den : ℕ
deriving DecidableEq

/-- Numerator after collapsing the degenerate zero-denominator case to
`0 / 1`. -/
def Score.nN (s : Score) : ℕ :=
  if s.den = 0 then 0 else s.num

/-- Denominator after collapsing the degenerate zero-denominator case to
`0 / 1`; always positive. -/
def Score.dN (s : Score) : ℕ :=
  if s.den = 0 then 1 else s.den

/-- The rational value of a score. -/
def Score.q (s : Score) : ℚ :=
  (s.nN : ℚ) / (s.dN : ℚ)

/-- Score comparison, by cross-multiplication of the collapsed
fractions. -/
def Score.lt (a b : Score) : Prop :=
  a.nN * b.dN < b.nN * a.dN

/-- Score equality as values, by cross-multiplication of the collapsed
fractions. -/
def Score.eqv (a b : Score) : Prop :=
  a.nN * b.dN = b.nN * a.dN

instance (a b : Score) : Decidable (Score.lt a b) := by
  unfold Score.lt; infer_instance

instance (a b : Score) : Decidable (Score.eqv a b) := by
  unfold Score.eqv; infer_instance

/-- Price amount, from `src/app.py` line 31 (`harga: int | float`): either an
integer or a decimal value, kept as distinct cases so the original numeric
kind is preserved. -/
inductive Amount where
  | int (n : Int)
  | dec (q : ℚ)
deriving DecidableEq

/-- `PriceItem` model from `src/app.py` lines 28–31: a label and an amount. -/
structure PriceItem where
  item : String
  harga : Amount
deriving DecidableEq

/-- `KemahResponse` model from `src/app.py` lines 33–46: the record shape the
`/search` endpoint returns per listing. -/
structure KemahResponse where
  name : String
  location : String
  avg_rating : ℚ
  top_vsm_score : Score
  photo_url : String
  gmaps_link : String
  price_items : List PriceItem
  facilities : String
deriving DecidableEq

/-- A raw engine output record before Pydantic response validation: every
field of `KemahResponse` may be absent from the dictionary the engine
returns. -/
structure RawRecord where
  name : Option String
  location : Option String
  avg_rating : Option ℚ
  top_vsm_score : Option Score
  photo_url : Option String
  gmaps_link : Option String
  price_items : Option (List PriceItem)
  facilities : Option String

/-- Pydantic validation of `KemahResponse` as declared in `src/app.py` lines
39–46: `name`, `location`, `avg_rating`, `top_vsm_score`, `photo_url` and
`gmaps_link` have no default and are required (validation fails when one is
missing); `price_items` defaults to the empty list and `facilities` to the
empty string when absent. -/
def validateKemahResponse (r : RawRecord) : Option KemahResponse :=
  match r.name, r.location, r.avg_rating, r.top_vsm_score,
        r.photo_url, r.gmaps_link with
  | some n, some l, some ar, some sc, some pu, some gl =>
      some ⟨n, l, ar, sc, pu, gl, r.price_items.getD [], r.facilities.getD ""⟩
  | _, _, _, _, _, _ => none

/-- Modelled from the spec (§4.1): tokenizer core.  Walks the characters,
lowercases alphanumeric runs and treats every other character (whitespace,
punctuation) as a separator.  `acc` holds the current run, reversed. -/
def tokenizeChars : List Char → List Char → List String
  | [], acc => if acc.isEmpty then [] else [String.mk acc.reverse]
  | c :: cs, acc =>
      if c.isAlphanum then tokenizeChars cs (c.toLower :: acc)
      else if acc.isEmpty then tokenizeChars cs acc
      else String.mk acc.reverse :: tokenizeChars cs []

/-- Modelled from the spec (§4.1): lowercase, strip punctuation, split on
separators. -/
def tokenize (s : String) : List String :=
  tokenizeChars s.data []

/-- Modelled from the spec (§4.1): the fixed stop-word set (Indonesian
function words; the spec's examples are "di", "yang", "untuk"). -/
def stopWords : List String :=
  ["di", "yang", "untuk", "dan", "ke", "dari", "dengan", "ada"]

/-- Modelled from the spec (§4.1): full normalization pipeline — tokenize,
then remove stop-words.  The same pipeline is assumed at corpus indexing
time: the token lists stored in the corpus index are its outputs. -/
def normalizeQuery (s : String) : List String :=
  (tokenize s).filter (fun t => ¬ stopWords.contains t)

/-- Modelled from the spec (§3): the closed set of recognized special
intents.  The claims only exercise "cheapest". -/
inductive SpecialIntent where
  | none
  | cheapest
deriving DecidableEq

/-- Modelled from the spec (§4.1): fixed ordered table of intent-triggering
tokens; first matching rule wins, in declaration order. -/
def intentRules : List (String × SpecialIntent) :=
  [("termurah", SpecialIntent.cheapest), ("cheapest", SpecialIntent.cheapest)]

/-- Modelled from the spec (§4.1): fixed gazetteer of region aliases mapped
to canonical region names. -/
def regionGazetteer : List (String × String) :=
  [("jogja", "jogja"), ("yogyakarta", "jogja"), ("jogjakarta", "jogja"),
   ("bandung", "bandung"), ("semarang", "semarang"), ("jakarta", "jakarta")]

/-- Modelled from the spec (§4.1) and named after the engine function the
façade calls (`src/app.py` line 117): normalize the raw text, detect a
special intent (first matching rule wins; the triggering token is removed
from the ranking tokens so it does not pollute the vector), then extract a
region filter (first gazetteer match wins; the matched alias is removed).
Returns `(tokens, intent, region)`. -/
def analyze_full_query (query_text : String) : List String × SpecialIntent × Option String :=
  let ts := normalizeQuery query_text
  let step1 : SpecialIntent × List String :=
    match intentRules.find? (fun r => ts.contains r.1) with
    | some r => (r.2, ts.filter (fun t => t ≠ r.1))
    | Option.none => (SpecialIntent.none, ts)
  let step2 : Option String × List String :=
    match regionGazetteer.find? (fun g => step1.2.contains g.1) with
    | some g => (some g.2, step1.2.filter (fun t => t ≠ g.1))
    | Option.none => (Option.none, step1.2)
  (step2.2, step1.1, step2.1)

/-- Modelled from the spec (§3): a listing's structured metadata record as
held by the Corpus Store. -/
structure Listing where
  id : ℕ
  name : String
  location : String
  avg_rating : ℚ
  photo_url : String
  gmaps_link : String
  price_items : List PriceItem
  facilities : String
deriving DecidableEq

/-- Modelled from the spec (§2, §6): the Corpus Store, loaded once at
startup.  `index` maps each listing id to its normalized document token
list (the source of its term vector); `meta` is the structured metadata
table.  The two tables are keyed independently, which is what makes an
index/metadata desync representable. -/
structure Corpus where
  index : List (ℕ × List String)
  meta : List Listing

/-- Modelled from the spec (§4.2): document frequency of a term — the number
of indexed documents containing it. -/
def docFreq (C : Corpus) (t : String) : ℕ :=
  (C.index.filter (fun p => p.2.contains t)).length

/-- Number of indexed documents. -/
def numDocs (C : Corpus) : ℕ :=
  C.index.length

/-- The corpus vocabulary: every term occurring in some indexed document.
Terms outside it have `idf = 0`, hence weight 0, so sums over the
vocabulary agree with sums over all terms. -/
def vocab (C : Corpus) : Finset String :=
  ((C.index.map Prod.snd).flatten).toFinset

/-- Product of the document frequencies of all vocabulary terms; the
global scaling constant that clears the `N / df` denominators.  Every
vocabulary term occurs in some document, so every factor — and hence the
product — is positive. -/
def dfProd (C : Corpus) : ℕ :=
  ∏ t ∈ vocab C, docFreq C t

/-- Modelled from the spec (§4.2): inverse document frequency.  Documented
choices: the plain quotient `N / df` (no logarithm), and a global scaling
by `dfProd` — cosine similarity is invariant under scaling every weight by
one positive constant, so this is the same ranking function with
all-natural weights: `idfN t = N · dfProd / df t`.  Terms absent from the
corpus vocabulary get weight 0 and never error. -/
def idfN (C : Corpus) (t : String) : ℕ :=
  if docFreq C t = 0 then 0 else numDocs C * (dfProd C / docFreq C t)

/-- Modelled from the spec (§4.2): raw term frequency (documented choice:
raw counts, not log-scaled), identical for queries and documents. -/
def termFreq (ts : List String) (t : String) : ℕ :=
  ts.count t

/-- Modelled from the spec (§4.2): TF-IDF weight of term `t` in token list
`ts` (under the global positive scaling by `dfProd`). -/
def tfidf (C : Corpus) (ts : List String) (t : String) : ℕ :=
  termFreq ts t * idfN C t

/-- Modelled from the spec (§4.2): inner product of the two TF-IDF vectors
(summed over the vocabulary, outside which all weights vanish). -/
def dotp (C : Corpus) (a b : List String) : ℕ :=
  ∑ t ∈ vocab C, tfidf C a t * tfidf C b t

/-- Squared Euclidean norm of a TF-IDF vector. -/
def normSq (C : Corpus) (a : List String) : ℕ :=
  dotp C a a

/-- Modelled from the spec (§4.2): cosine similarity between query and
document, represented exactly by its square
`⟨q,d⟩² / (‖q‖² · ‖d‖²)` as an unreduced fraction (see the file header: on
non-negative weights this is order-isomorphic to cosine).  For a zero
query or document vector both components are 0 and the score denotes
0. -/
def score (C : Corpus) (q d : List String) : Score :=
  ⟨(dotp C q d) ^ 2, normSq C q * normSq C d⟩

/-- Modelled from the spec (§4.2): the ranking comparison — descending by
score value, ties broken by ascending listing id. -/
def rankRel (a b : ℕ × Score) : Prop :=
  Score.lt b.2 a.2 ∨ (Score.eqv a.2 b.2 ∧ a.1 ≤ b.1)

instance : DecidableRel rankRel := by
  unfold rankRel; infer_instance

/-- Modelled from the spec (§4.2): score every indexed document against the
query tokens, prune documents with zero overlap (score 0), and sort
descending by score with the listing-id tie-break.  (The contract fixes
only the ordering; the sort is realized by the stable insertion sort.) -/
def rankDocs (C : Corpus) (ts : List String) : List (ℕ × Score) :=
  ((C.index.map (fun p => (p.1, score C ts p.2))).filter
      (fun p => decide (0 < p.2.num))).insertionSort rankRel

/-- Numeric value of an amount, for price comparisons. -/
def amtVal : Amount → ℚ
  | Amount.int n => (n : ℚ)
  | Amount.dec q => q

/-- Minimum of a list of rationals (0 for the empty list). -/
def minQ : List ℚ → ℚ
  | [] => 0
  | [x] => x
  | x :: y :: xs => min x (minQ (y :: xs))

/-- Modelled from the spec (§4.3): a listing's minimum price item value
(documented choice: a listing with no price items sorts as 0). -/
def minPrice (L : Listing) : ℚ :=
  minQ (L.price_items.map (fun p => amtVal p.harga))

/-- Modelled from the spec (§4.3): comparison for the "cheapest" intent —
ascending by minimum price item, ties broken by ascending listing id. -/
def cheapRel (a b : Listing × Score) : Prop :=
  minPrice a.1 < minPrice b.1 ∨
    (minPrice a.1 = minPrice b.1 ∧ a.1.id ≤ b.1.id)

instance : DecidableRel cheapRel := by
  unfold cheapRel; infer_instance

/-- Modelled from the spec (§4.3): join ranked ids to their metadata
records.  An id with no metadata record (index/metadata desync) is skipped
— dropped by `filterMap` — and assembly continues with the rest. -/
def joinMeta (C : Corpus) (ranked : List (ℕ × Score)) : List (Listing × Score) :=
  ranked.filterMap
    (fun p => (C.meta.find? (fun L => L.id == p.1)).map (fun L => (L, p.2)))

/-- Modelled from the spec (§3): region matching policy (documented choice:
case-insensitive exact-token match — the region must appear as a token of
the listing's location after the same lowercasing tokenization). -/
def regionMatch (r : String) (loc : String) : Bool :=
  (tokenize loc).contains r

/-- Modelled from the spec (§4.3): apply the optional region filter to the
joined candidates, after ranking and before any truncation. -/
def applyRegion (region : Option String) (l : List (Listing × Score)) : List (Listing × Score) :=
  match region with
  | Option.none => l
  | some r => l.filter (fun p => regionMatch r p.1.location)

/-- Shape a joined candidate into the response record; metadata fields,
`price_items` included, are passed through unchanged. -/
def toRecord (L : Listing) (s : Score) : KemahResponse :=
  ⟨L.name, L.location, L.avg_rating, s, L.photo_url, L.gmaps_link,
   L.price_items, L.facilities⟩

/-- Modelled from the spec (§4.3): the Result Assembler — join the ranked
candidates to metadata (skipping desynced ids), apply the region filter,
then either keep the ranker's order or — for the "cheapest" intent —
re-sort ascending by minimum price item.  Its totality is the formal
counterpart of "never surfaced as a request failure". -/
def assemble (C : Corpus) (ranked : List (ℕ × Score))
    (special_intent : SpecialIntent) (region_filter : Option String) :
    List KemahResponse :=
  let filtered := applyRegion region_filter (joinMeta C ranked)
  let ordered :=
    match special_intent with
    | SpecialIntent.cheapest => filtered.insertionSort cheapRel
    | SpecialIntent.none => filtered
  ordered.map (fun p => toRecord p.1 p.2)

/-- Modelled from the spec (§4.2–4.3) and named after the engine function
the façade calls (`src/app.py` line 126): rank the indexed documents
against the query tokens, then assemble. -/
def search_by_keyword (C : Corpus) (query_tokens : List String)
    (special_intent : SpecialIntent) (region_filter : Option String) :
    List KemahResponse :=
  assemble C (rankDocs C query_tokens) special_intent region_filter

/-- The `/search` endpoint pipeline from `src/app.py` lines 102–137
(`search_kemah`): analyze the query, then run the keyword search with the
extracted tokens, intent and region. -/
def search_kemah (C : Corpus) (query : String) : List KemahResponse :=
  search_by_keyword C (analyze_full_query query).1
    (analyze_full_query query).2.1 (analyze_full_query query).2.2

/-- Sample listing used by concrete witnesses. -/
def L1 : Listing :=
  ⟨1, "Kuncen Camp", "Kab Semarang Jawa Tengah", 4, "p1", "g1",
   [⟨"Tiket", Amount.int 20000⟩], "Kolam Renang|WiFi"⟩

/-- Sample listing used by concrete witnesses. -/
def L2 : Listing :=
  ⟨2, "Jogja Hill Camp", "Sleman Jogja", 5, "p2", "g2",
   [⟨"Tiket", Amount.int 12500⟩, ⟨"Sewa Tenda", Amount.int 50000⟩], "Kolam Renang"⟩

/-- Sample listing used by concrete witnesses. -/
def L3 : Listing :=
  ⟨3, "Pinus Camp", "Bantul Jogja", 3, "p3", "g3",
   [⟨"Tiket", Amount.dec 15000⟩], "WiFi"⟩

/-- Sample corpus used by concrete witnesses. -/
def sampleCorpus : Corpus :=
  ⟨[(1, ["kemah", "kolam", "renang", "semarang"]),
    (2, ["kemah", "jogja", "kolam"]),
    (3, ["kemah", "pinus", "jogja"])],
   [L1, L2, L3]⟩

/-- Corpus with two listings of identical term lists, used to refute the
original form of C2. -/
def cexCorpus : Corpus :=
  ⟨[(1, ["kemah"]), (2, ["kemah"])], []⟩

/-- Minimum price item value of a response record, as `minPrice` but read
off the returned record. -/
def minPriceR (rec : KemahResponse) : ℚ :=
  minQ (rec.price_items.map (fun p => amtVal p.harga))

/-- Modelled from the spec (§2, lifecycle): a search request against the
corpus store, as a state transformer — it produces the result list and the
corpus store it leaves behind.  The spec's lifecycle section states search
requests do not mutate the store, so the store passes through
untouched. -/
def search_state (C : Corpus) (query : String) : List KemahResponse × Corpus :=
  (search_kemah C query, C)

/-- The surviving listing ids of a query after ranking, metadata join and
region filtering — the set C5 compares across the two filter orders. -/
def survivingIds (C : Corpus) (ts : List String) (region : Option String) :
    List ℕ :=
  (applyRegion region (joinMeta C (rankDocs C ts))).map (fun p => p.1.id)

/-- Restriction of the corpus to the listings matching region `r`: the
index keeps the rows whose listing's metadata location matches `r`, and
the metadata table keeps the matching listings. -/
def regionRestrict (C : Corpus) (r : String) : Corpus :=
  ⟨C.index.filter (fun p =>
      ((C.meta.find? (fun L => L.id == p.1)).map
        (fun L => regionMatch r L.location)).getD false),
   C.meta.filter (fun L => regionMatch r L.location)⟩

/-- Sample raw engine record (no price items, no facilities field) used by
the validation witness. -/
def rawSample : RawRecord :=
  ⟨some "Kuncen Camp", some "Semarang", some 4, some ⟨1, 1⟩, some "p", some "g",
   Option.none, Option.none⟩

/-! ### Score order: bridge between cross-multiplication and rational value -/

theorem Score.dN_pos (s : Score) : 0 < s.dN := by
  unfold Score.dN
  split
  · exact Nat.one_pos
  · exact Nat.pos_of_ne_zero (by assumption)

theorem Score.lt_iff_q {a b : Score} : Score.lt a b ↔ a.q < b.q := by
  unfold Score.q
  rw [div_lt_div_iff₀ (by exact_mod_cast a.dN_pos) (by exact_mod_cast b.dN_pos)]
  unfold Score.lt
  constructor
  · intro h; exact_mod_cast h
  · intro h; exact_mod_cast h

theorem Score.eqv_iff_q {a b : Score} : Score.eqv a b ↔ a.q = b.q := by
  unfold Score.q
  rw [div_eq_div_iff (by exact_mod_cast a.dN_pos.ne' : (a.dN : ℚ) ≠ 0)
        (by exact_mod_cast b.dN_pos.ne' : (b.dN : ℚ) ≠ 0)]
  unfold Score.eqv
  constructor
  · intro h; exact_mod_cast h
  · intro h; exact_mod_cast h

instance : IsTrans (ℕ × Score) rankRel := by
  constructor
  intro a b c hab hbc
  rw [rankRel, Score.lt_iff_q, Score.eqv_iff_q] at hab hbc ⊢
  rcases hab with h₁ | ⟨h₁, h₂⟩ <;> rcases hbc with h₃ | ⟨h₃, h₄⟩
  · exact Or.inl (lt_trans h₃ h₁)
  · exact Or.inl (h₃ ▸ h₁)
  · exact Or.inl (lt_of_lt_of_eq h₃ h₁.symm)
  · exact Or.inr ⟨h₁.trans h₃, le_trans h₂ h₄⟩

instance : IsTotal (ℕ × Score) rankRel := by
  constructor
  intro a b
  rw [rankRel, rankRel, Score.lt_iff_q, Score.lt_iff_q, Score.eqv_iff_q, Score.eqv_iff_q]
  rcases lt_trichotomy a.2.q b.2.q with h | h | h
  · exact Or.inr (Or.inl h)
  · rcases Nat.le_total a.1 b.1 with h' | h'
    · exact Or.inl (Or.inr ⟨h, h'⟩)
    · exact Or.inr (Or.inr ⟨h.symm, h'⟩)
  · exact Or.inl (Or.inl h)

instance : IsTrans (Listing × Score) cheapRel := by
  constructor
  intro a b c hab hbc
  rw [cheapRel] at hab hbc ⊢
  rcases hab with h₁ | ⟨h₁, h₂⟩ <;> rcases hbc with h₃ | ⟨h₃, h₄⟩
  · exact Or.inl (lt_trans h₁ h₃)
  · exact Or.inl (lt_of_lt_of_eq h₁ h₃)
  · exact Or.inl (h₁ ▸ h₃)
  · exact Or.inr ⟨h₁.trans h₃, le_trans h₂ h₄⟩

instance : IsTotal (Listing × Score) cheapRel := by
  constructor
  intro a b
  rw [cheapRel, cheapRel]
  rcases lt_trichotomy (minPrice a.1) (minPrice b.1) with h | h | h
  · exact Or.inl (Or.inl h)
  · rcases Nat.le_total a.1.id b.1.id with h' | h'
    · exact Or.inl (Or.inr ⟨h, h'⟩)
    · exact Or.inr (Or.inr ⟨h.symm, h'⟩)
  · exact Or.inr (Or.inl h)

/-! ### Scoring lemmas -/

theorem tfidf_nil (C : Corpus) (t : String) : tfidf C [] t = 0 := by
  simp [tfidf, termFreq]

theorem dotp_nil_left (C : Corpus) (d : List String) : dotp C [] d = 0 :=
  Finset.sum_eq_zero fun t _ => by rw [tfidf_nil, Nat.zero_mul]

theorem rankDocs_nil (C : Corpus) : rankDocs C [] = [] := by
  unfold rankDocs
  have h : (C.index.map (fun p => (p.1, score C [] p.2))).filter
      (fun p => decide (0 < p.2.num)) = [] := by
    rw [List.filter_eq_nil_iff]
    intro p hp
    rcases List.mem_map.mp hp with ⟨x, _, hx⟩
    subst hx
    simp [score, dotp_nil_left]
  rw [h]
  rfl

theorem mem_vocab_of_mem {C : Corpus} {j : ℕ} {d : List String} {t : String}
    (hd : (j, d) ∈ C.index) (ht : t ∈ d) : t ∈ vocab C := by
  unfold vocab
  rw [List.mem_toFinset, List.mem_flatten]
  exact ⟨d, List.mem_map.mpr ⟨(j, d), hd, rfl⟩, ht⟩

theorem exists_doc_of_mem_vocab {C : Corpus} {t : String} (h : t ∈ vocab C) :
    ∃ p, p ∈ C.index ∧ t ∈ p.2 := by
  unfold vocab at h
  rw [List.mem_toFinset, List.mem_flatten] at h
  rcases h with ⟨l, hl, ht⟩
  rcases List.mem_map.mp hl with ⟨p, hp, rfl⟩
  exact ⟨p, hp, ht⟩

theorem docFreq_pos {C : Corpus} {j : ℕ} {d : List String} {t : String}
    (hd : (j, d) ∈ C.index) (ht : t ∈ d) : 0 < docFreq C t := by
  unfold docFreq
  apply List.length_pos_of_mem
  exact List.mem_filter.mpr ⟨hd, by simpa using ht⟩

theorem dfProd_pos (C : Corpus) : 0 < dfProd C := by
  unfold dfProd
  apply Finset.prod_pos
  intro t ht
  rcases exists_doc_of_mem_vocab ht with ⟨⟨j, d⟩, hp, htd⟩
  exact docFreq_pos hp htd

theorem idfN_pos {C : Corpus} {j : ℕ} {d : List String} {t : String}
    (hd : (j, d) ∈ C.index) (ht : t ∈ d) : 0 < idfN C t := by
  have hdf := docFreq_pos hd ht
  unfold idfN
  rw [if_neg hdf.ne']
  apply Nat.mul_pos
  · exact List.length_pos_of_mem hd
  · apply Nat.div_pos
    · exact Nat.le_of_dvd (dfProd_pos C)
        (Finset.dvd_prod_of_mem (fun t => docFreq C t) (mem_vocab_of_mem hd ht))
    · exact hdf

theorem tfidf_pos {C : Corpus} {j : ℕ} {d : List String} {ts : List String} {t : String}
    (hd : (j, d) ∈ C.index) (ht : t ∈ d) (hts : t ∈ ts) : 0 < tfidf C ts t := by
  unfold tfidf termFreq
  exact Nat.mul_pos (List.count_pos_iff.mpr hts) (idfN_pos hd ht)

theorem tfidf_eq_zero_of_not_mem {C : Corpus} {ts : List String} {t : String}
    (h : t ∉ ts) : tfidf C ts t = 0 := by
  unfold tfidf termFreq
  rw [List.count_eq_zero.mpr h, Nat.zero_mul]

theorem dotp_pos_iff {C : Corpus} {j : ℕ} {d : List String} (ts : List String)
    (hd : (j, d) ∈ C.index) : 0 < dotp C ts d ↔ ∃ t, t ∈ ts ∧ t ∈ d := by
  constructor
  · intro h
    by_contra hno
    push_neg at hno
    have hz : dotp C ts d = 0 := by
      apply Finset.sum_eq_zero
      intro t _
      by_cases hts : t ∈ ts
      · rw [tfidf_eq_zero_of_not_mem (hno t hts), Nat.mul_zero]
      · rw [tfidf_eq_zero_of_not_mem hts, Nat.zero_mul]
    rw [hz] at h
    exact absurd h (lt_irrefl 0)
  · rintro ⟨t, hts, htd⟩
    apply Finset.sum_pos'
    · intro i _
      exact Nat.zero_le _
    · exact ⟨t, mem_vocab_of_mem hd htd,
        Nat.mul_pos (tfidf_pos hd htd hts) (tfidf_pos hd htd (by exact htd))⟩

theorem score_num_pos_iff {C : Corpus} {j : ℕ} {d : List String} (ts : List String)
    (hd : (j, d) ∈ C.index) : 0 < (score C ts d).num ↔ ∃ t, t ∈ ts ∧ t ∈ d := by
  show 0 < (dotp C ts d) ^ 2 ↔ _
  rw [pow_pos_iff (two_ne_zero)]
  exact dotp_pos_iff ts hd

theorem score_num_le_den (C : Corpus) (q d : List String) :
    (score C q d).num ≤ (score C q d).den := by
  show (dotp C q d) ^ 2 ≤ normSq C q * normSq C d
  have h := Finset.sum_mul_sq_le_sq_mul_sq (vocab C) (tfidf C q) (tfidf C d)
  unfold dotp normSq tfidf
  unfold dotp
  calc (∑ t ∈ vocab C, tfidf C q t * tfidf C d t) ^ 2
      ≤ (∑ t ∈ vocab C, tfidf C q t ^ 2) * ∑ t ∈ vocab C, tfidf C d t ^ 2 := h
    _ = (∑ t ∈ vocab C, tfidf C q t * tfidf C q t) *
          ∑ t ∈ vocab C, tfidf C d t * tfidf C d t := by
        congr 1
        · exact Finset.sum_congr rfl fun t _ => pow_two _
        · exact Finset.sum_congr rfl fun t _ => pow_two _

theorem score_q_nonneg (s : Score) : 0 ≤ s.q := by
  unfold Score.q
  positivity

theorem score_q_le_one (C : Corpus) (q d : List String) : (score C q d).q ≤ 1 := by
  by_cases h : (score C q d).den = 0
  · unfold Score.q Score.nN Score.dN
    rw [if_pos h, if_pos h]
    norm_num
  · unfold Score.q Score.nN Score.dN
    rw [if_neg h, if_neg h]
    rw [div_le_one (by exact_mod_cast Nat.pos_of_ne_zero h)]
    exact_mod_cast score_num_le_den C q d

/-! ### Ranking lemmas -/

theorem rankDocs_sorted (C : Corpus) (ts : List String) :
    (rankDocs C ts).Pairwise rankRel :=
  List.sorted_insertionSort rankRel _

theorem mem_rankDocs_iff {C : Corpus} {ts : List String} {x : ℕ × Score} :
    x ∈ rankDocs C ts ↔
      0 < x.2.num ∧ ∃ d, (x.1, d) ∈ C.index ∧ x.2 = score C ts d := by
  unfold rankDocs
  rw [List.mem_insertionSort, List.mem_filter]
  constructor
  · rintro ⟨hmem, hpos⟩
    rcases List.mem_map.mp hmem with ⟨p, hp, hpx⟩
    refine ⟨by simpa using hpos, p.2, ?_, ?_⟩
    · rw [← hpx]
      exact hp
    · rw [← hpx]
  · rintro ⟨hpos, d, hd, hs⟩
    constructor
    · apply List.mem_map.mpr
      refine ⟨(x.1, d), hd, ?_⟩
      rw [← hs]
    · simpa using hpos

theorem rankDocs_score_mem {C : Corpus} {ts : List String} {x : ℕ × Score}
    (h : x ∈ rankDocs C ts) : ∃ d, (x.1, d) ∈ C.index ∧ x.2 = score C ts d :=
  (mem_rankDocs_iff.mp h).2

/-! ### Query-analyzer lemmas -/

theorem analyze_full_query_of_nil {q : String} (h : normalizeQuery q = []) :
    analyze_full_query q = ([], SpecialIntent.none, Option.none) := by
  unfold analyze_full_query
  rw [h]
  rfl

/-! ### C1 -/

/-- C1: for every query whose normalization yields the empty token sequence
(empty input, stop-words-only input), `search` returns an empty result list
— it is a total function, so no error is possible. -/
theorem empty_token_query_returns_empty (C : Corpus) (q : String)
    (h : normalizeQuery q = []) : search_kemah C q = [] := by
  unfold search_kemah
  rw [analyze_full_query_of_nil h]
  show assemble C (rankDocs C []) SpecialIntent.none Option.none = []
  rw [rankDocs_nil]
  rfl

/-- Witness for C1 at the stop-words-only query "di yang untuk". -/
theorem empty_token_query_returns_empty_witness :
    normalizeQuery "di yang untuk" = [] ∧
      search_kemah ⟨[(1, ["kemah"])], []⟩ "di yang untuk" = [] :=
  ⟨by decide, empty_token_query_returns_empty ⟨[(1, ["kemah"])], []⟩ "di yang untuk" (by decide)⟩

/-! ### C4 -/

/-- C4: for every token sequence, the ranker returns (listing_id, score)
pairs sorted descending by score value, with ties between equal score
values broken by ascending listing id. -/
theorem rank_sorted_descending (C : Corpus) (ts : List String) :
    (rankDocs C ts).Pairwise
      (fun a b => b.2.q < a.2.q ∨ (a.2.q = b.2.q ∧ a.1 ≤ b.1)) := by
  apply (rankDocs_sorted C ts).imp
  intro a b hab
  rcases hab with h | ⟨h, h'⟩
  · exact Or.inl (Score.lt_iff_q.mp h)
  · exact Or.inr ⟨Score.eqv_iff_q.mp h, h'⟩

/-! ### C3 -/

theorem rankDocs_ids_nodup {C : Corpus} (h : (C.index.map Prod.fst).Nodup)
    (ts : List String) : ((rankDocs C ts).map Prod.fst).Nodup := by
  unfold rankDocs
  have hperm :
      ((((C.index.map (fun p => (p.1, score C ts p.2))).filter
          (fun p => decide (0 < p.2.num))).insertionSort rankRel).map Prod.fst).Perm
        ((((C.index.map (fun p => (p.1, score C ts p.2))).filter
          (fun p => decide (0 < p.2.num)))).map Prod.fst) :=
    (List.perm_insertionSort rankRel _).map Prod.fst
  apply hperm.nodup_iff.mpr
  apply List.Nodup.sublist
    (List.Sublist.map Prod.fst (List.filter_sublist _))
  rw [List.map_map]
  have : (Prod.fst ∘ fun p : ℕ × List String => (p.1, score C ts p.2)) = Prod.fst := rfl
  rw [this]
  exact h

/-- C3: search is deterministic — as a pure function of the corpus and the
query text, a second run returns the same ordered output; moreover, when
listing ids are unique, the ranking order is rigid (pairwise strict), so
even equal scores have a fixed tie-break order, leaving no freedom between
runs or implementations. -/
theorem search_deterministic (C : Corpus) (q : String)
    (h : (C.index.map Prod.fst).Nodup) :
    search_kemah C q = search_kemah C q ∧
      (rankDocs C (analyze_full_query q).1).Pairwise
        (fun a b => b.2.q < a.2.q ∨ (a.2.q = b.2.q ∧ a.1 < b.1)) := by
  refine ⟨rfl, ?_⟩
  have hs := rankDocs_sorted C (analyze_full_query q).1
  have hn := rankDocs_ids_nodup h (analyze_full_query q).1
  have hp : (rankDocs C (analyze_full_query q).1).Pairwise
      (fun a b => a.1 ≠ b.1) := List.pairwise_map.mp hn
  apply (hs.and hp).imp
  rintro a b ⟨hr, hne⟩
  rcases hr with h' | ⟨h', h''⟩
  · exact Or.inl (Score.lt_iff_q.mp h')
  · exact Or.inr ⟨Score.eqv_iff_q.mp h', lt_of_le_of_ne h'' hne⟩

/-- Witness for C3 on the sample corpus. -/
theorem search_deterministic_witness :
    search_kemah sampleCorpus "kemah kolam" = search_kemah sampleCorpus "kemah kolam" ∧
      (rankDocs sampleCorpus (analyze_full_query "kemah kolam").1).Pairwise
        (fun a b => b.2.q < a.2.q ∨ (a.2.q = b.2.q ∧ a.1 < b.1)) :=
  search_deterministic sampleCorpus "kemah kolam" (by decide)

/-! ### C2 -/

theorem normSq_pos {C : Corpus} {j : ℕ} {d : List String}
    (hd : (j, d) ∈ C.index) (hne : d ≠ []) : 0 < normSq C d := by
  rcases List.exists_mem_of_ne_nil d hne with ⟨t, ht⟩
  exact (dotp_pos_iff d hd).mpr ⟨t, ht, ht⟩

theorem score_self_q {C : Corpus} {j : ℕ} {d : List String}
    (hd : (j, d) ∈ C.index) (hne : d ≠ []) : (score C d d).q = 1 := by
  have hpos : 0 < normSq C d := normSq_pos hd hne
  have hnum : (score C d d).num = normSq C d * normSq C d := by
    show (dotp C d d) ^ 2 = _
    rw [pow_two]
    rfl
  have hden : (score C d d).den = normSq C d * normSq C d := rfl
  have hd0 : (score C d d).den ≠ 0 := by
    rw [hden]
    exact (Nat.mul_pos hpos hpos).ne'
  unfold Score.q Score.nN Score.dN
  rw [if_neg hd0, if_neg hd0, hnum, hden]
  rw [div_self (by exact_mod_cast (Nat.mul_pos hpos hpos).ne')]

/-- C2 (amended): for every listing whose indexed terms form the query's
token sequence, that listing attains similarity 1 — the maximum
attainable: every document scores at most 1 — and appears in the ranking
with score 1, and the first-ranked entry likewise has similarity 1.  (The
original claim — the listing itself always ranks first — fails when
another listing with a smaller id has an identical term profile; see the
counterexample.) -/
theorem exact_terms_query_attains_max_similarity (C : Corpus) (i : ℕ)
    (d : List String) (hmem : (i, d) ∈ C.index) (hne : d ≠ []) :
    (score C d d).q = 1 ∧
      (∀ j e, (j, e) ∈ C.index → (score C d e).q ≤ 1) ∧
      (i, score C d d) ∈ rankDocs C d ∧
      (∀ p ∈ rankDocs C d, p.2.q ≤ 1) ∧
      (∃ p, (rankDocs C d).head? = some p ∧ p.2.q = 1) := by
  have h1 : (score C d d).q = 1 := score_self_q hmem hne
  have hboundAll : ∀ p ∈ rankDocs C d, p.2.q ≤ 1 := by
    intro p hp
    rcases rankDocs_score_mem hp with ⟨e, _, hs⟩
    rw [hs]
    exact score_q_le_one C d e
  have hself : (i, score C d d) ∈ rankDocs C d := by
    apply mem_rankDocs_iff.mpr
    refine ⟨?_, d, hmem, rfl⟩
    rcases List.exists_mem_of_ne_nil d hne with ⟨t, ht⟩
    exact (score_num_pos_iff d hmem).mpr ⟨t, ht, ht⟩
  refine ⟨h1, fun j e _ => score_q_le_one C d e, hself, hboundAll, ?_⟩
  rcases hl : rankDocs C d with _ | ⟨a, tl⟩
  · rw [hl] at hself
    exact absurd hself (List.not_mem_nil _)
  · refine ⟨a, rfl, ?_⟩
    have hale : a.2.q ≤ 1 := by
      apply hboundAll
      rw [hl]
      exact List.Mem.head _
    have hsorted := rankDocs_sorted C d
    rw [hl, List.pairwise_cons] at hsorted
    rw [hl] at hself
    rcases List.mem_cons.mp hself with heq | hmem'
    · rw [← heq]
      exact h1
    · have hrel := hsorted.1 _ hmem'
      rcases hrel with hlt | ⟨heqv, _⟩
      · have : (score C d d).q < a.2.q := Score.lt_iff_q.mp hlt
        rw [h1] at this
        exact absurd this (not_lt.mpr hale)
      · have := Score.eqv_iff_q.mp heqv
        rw [h1] at this
        exact this

/-- C2 counterexample: listing 2's indexed terms are exactly the query's
token sequence and its similarity is maximal (score fraction num = den,
value 1), yet the ranking places listing 1 first — the listing-id
tie-break mandated by the ranking contract contradicts "L ranks first" as
soon as another listing with a smaller id shares the same term profile. -/
theorem exact_terms_query_not_always_first_cex :
    (2, ["kemah"]) ∈ cexCorpus.index ∧
      (score cexCorpus ["kemah"] ["kemah"]).num =
        (score cexCorpus ["kemah"] ["kemah"]).den ∧
      (rankDocs cexCorpus ["kemah"]).map Prod.fst = [1, 2] := by
  decide

/-- Witness for the amended C2 on the sample corpus: listing 1 with its
own term list as the query. -/
theorem exact_terms_query_attains_max_similarity_witness :
    (score sampleCorpus ["kemah", "kolam", "renang", "semarang"]
        ["kemah", "kolam", "renang", "semarang"]).q = 1 ∧
      (∀ j e, (j, e) ∈ sampleCorpus.index →
        (score sampleCorpus ["kemah", "kolam", "renang", "semarang"] e).q ≤ 1) ∧
      (1, score sampleCorpus ["kemah", "kolam", "renang", "semarang"]
          ["kemah", "kolam", "renang", "semarang"]) ∈
        rankDocs sampleCorpus ["kemah", "kolam", "renang", "semarang"] ∧
      (∀ p ∈ rankDocs sampleCorpus ["kemah", "kolam", "renang", "semarang"],
        p.2.q ≤ 1) ∧
      (∃ p, (rankDocs sampleCorpus
          ["kemah", "kolam", "renang", "semarang"]).head? = some p ∧ p.2.q = 1) :=
  exact_terms_query_attains_max_similarity sampleCorpus 1
    ["kemah", "kolam", "renang", "semarang"] (by decide) (by decide)

/-! ### C6 -/

theorem assemble_cheapest_sorted (C : Corpus) (ranked : List (ℕ × Score))
    (region : Option String) :
    (assemble C ranked SpecialIntent.cheapest region).Pairwise
      (fun a b => minPriceR a ≤ minPriceR b) := by
  unfold assemble
  apply List.pairwise_map.mpr
  apply (List.sorted_insertionSort cheapRel _).imp
  intro a b hab
  show minPriceR (toRecord a.1 a.2) ≤ minPriceR (toRecord b.1 b.2)
  rcases hab with h | ⟨h, _⟩
  · exact le_of_lt h
  · exact le_of_eq h

/-- C6: for every query carrying the "cheapest" intent, the result list is
sorted ascending by each listing's minimum price item (rather than by
descending similarity). -/
theorem cheapest_intent_sorts_by_min_price (C : Corpus) (q : String)
    (h : (analyze_full_query q).2.1 = SpecialIntent.cheapest) :
    (search_kemah C q).Pairwise (fun a b => minPriceR a ≤ minPriceR b) := by
  unfold search_kemah search_by_keyword
  rw [h]
  exact assemble_cheapest_sorted C _ _

/-- Witness for C6 at the query "kemah termurah". -/
theorem cheapest_intent_sorts_by_min_price_witness :
    (search_kemah sampleCorpus "kemah termurah").Pairwise
      (fun a b => minPriceR a ≤ minPriceR b) :=
  cheapest_intent_sorts_by_min_price sampleCorpus "kemah termurah" (by decide)

/-! ### C7 -/

/-- C7: a ranked id with no matching metadata record (index/metadata
desync), wherever it stands in the ranked list, is skipped and assembly
continues with the records before and after it — assembling with the
desynced entry equals assembling without it, and `assemble` is total, so
the desync can never fail the request. -/
theorem assemble_skips_missing_metadata (C : Corpus) (i : ℕ) (s : Score)
    (pre post : List (ℕ × Score)) (intent : SpecialIntent)
    (region : Option String)
    (h : C.meta.find? (fun L => L.id == i) = Option.none) :
    assemble C (pre ++ (i, s) :: post) intent region =
      assemble C (pre ++ post) intent region := by
  unfold assemble
  have hj : joinMeta C (pre ++ (i, s) :: post) = joinMeta C (pre ++ post) := by
    unfold joinMeta
    rw [List.filterMap_append, List.filterMap_append, List.filterMap_cons]
    simp [h]
  rw [hj]

/-- Witness for C7: id 99, which has no metadata record in the sample
corpus, desyncs in the middle of the ranked list. -/
theorem assemble_skips_missing_metadata_witness :
    assemble sampleCorpus ([(1, ⟨1, 1⟩)] ++ (99, ⟨1, 1⟩) :: [(2, ⟨1, 1⟩)])
        SpecialIntent.none Option.none =
      assemble sampleCorpus ([(1, ⟨1, 1⟩)] ++ [(2, ⟨1, 1⟩)]) SpecialIntent.none
        Option.none :=
  assemble_skips_missing_metadata sampleCorpus 99 ⟨1, 1⟩ [(1, ⟨1, 1⟩)]
    [(2, ⟨1, 1⟩)] SpecialIntent.none Option.none (by decide)

/-! ### C8 -/

/-- C8: a search request does not mutate the Corpus Store — the store a
request leaves behind is the one it started from, so the listing metadata,
the index, and every derived quantity (document frequencies, IDF weights,
document vectors/scores) are unchanged by the call. -/
theorem search_preserves_corpus (C : Corpus) (q : String) :
    (search_state C q).2 = C ∧
      (search_state C q).2.index = C.index ∧
      (search_state C q).2.meta = C.meta ∧
      (∀ t, docFreq (search_state C q).2 t = docFreq C t ∧
        idfN (search_state C q).2 t = idfN C t) ∧
      (∀ ts d, score (search_state C q).2 ts d = score C ts d) ∧
      (search_state C q).1 = search_kemah C q :=
  ⟨rfl, rfl, rfl, fun _ => ⟨rfl, rfl⟩, fun _ _ => rfl, rfl⟩

/-! ### C9 -/

theorem mem_applyRegion {region : Option String} {l : List (Listing × Score)}
    {pr : Listing × Score} (h : pr ∈ applyRegion region l) : pr ∈ l := by
  rcases region with _ | r
  · exact h
  · exact (List.mem_filter.mp h).1

theorem mem_assemble_meta {C : Corpus} {ranked : List (ℕ × Score)}
    {intent : SpecialIntent} {region : Option String} {rec : KemahResponse}
    (h : rec ∈ assemble C ranked intent region) :
    ∃ L s, L ∈ C.meta ∧ rec = toRecord L s := by
  unfold assemble at h
  have h' : ∃ pr ∈ applyRegion region (joinMeta C ranked),
      toRecord pr.1 pr.2 = rec := by
    rcases intent with _ | _
    · exact List.mem_map.mp h
    · rcases List.mem_map.mp h with ⟨pr, hpr, hrec⟩
      exact ⟨pr, (List.mem_insertionSort cheapRel).mp hpr, hrec⟩
  rcases h' with ⟨pr, hpr, hrec⟩
  have hj : pr ∈ joinMeta C ranked := mem_applyRegion hpr
  unfold joinMeta at hj
  rcases List.mem_filterMap.mp hj with ⟨a, _, ha⟩
  rcases Option.map_eq_some'.mp ha with ⟨L, hf, hL⟩
  refine ⟨pr.1, pr.2, ?_, hrec.symm⟩
  have : L = pr.1 := by rw [← hL]
  rw [← this]
  exact List.mem_of_find?_eq_some hf

/-- C9: every result record's price entries are the source listing's price
entries, unchanged — each amount keeps the numeric kind (`Amount.int` or
`Amount.dec`) the corpus stored, and no entry is coerced to the other
kind. -/
theorem search_preserves_price_representation (C : Corpus) (q : String)
    (rec : KemahResponse) (h : rec ∈ search_kemah C q) :
    ∃ L, L ∈ C.meta ∧ rec.price_items = L.price_items ∧
      ∀ p, p ∈ rec.price_items → p ∈ L.price_items := by
  unfold search_kemah search_by_keyword at h
  rcases mem_assemble_meta h with ⟨L, s, hL, hrec⟩
  refine ⟨L, hL, ?_, ?_⟩
  · rw [hrec]
    rfl
  · intro p hp
    rw [hrec] at hp
    exact hp

/-- Witness for C9: a record returned for the query "kemah" carries
listing 2's price items verbatim. -/
theorem search_preserves_price_representation_witness :
    ∃ L, L ∈ sampleCorpus.meta ∧
      (toRecord L2 (score sampleCorpus ["kemah"] ["kemah", "jogja", "kolam"])).price_items
        = L.price_items ∧
      ∀ p, p ∈ (toRecord L2
          (score sampleCorpus ["kemah"] ["kemah", "jogja", "kolam"])).price_items →
        p ∈ L.price_items :=
  search_preserves_price_representation sampleCorpus "kemah"
    (toRecord L2 (score sampleCorpus ["kemah"] ["kemah", "jogja", "kolam"]))
    (by decide)

/-! ### C10 -/

/-- C10: Pydantic validation of the response model accepts a record exactly
when the six default-less fields (name, location, avg_rating,
top_vsm_score, photo_url, gmaps_link) are present, and then fills a
missing `price_items` with the empty list and a missing `facilities` with
the empty string instead of failing. -/
theorem kemah_response_required_and_defaults (r : RawRecord) :
    ((validateKemahResponse r).isSome = true ↔
      (r.name.isSome = true ∧ r.location.isSome = true ∧
        r.avg_rating.isSome = true ∧ r.top_vsm_score.isSome = true ∧
        r.photo_url.isSome = true ∧ r.gmaps_link.isSome = true)) ∧
      ∀ k, validateKemahResponse r = some k →
        k.price_items = r.price_items.getD [] ∧
        k.facilities = r.facilities.getD "" ∧
        (r.price_items = Option.none → k.price_items = []) ∧
        (r.facilities = Option.none → k.facilities = "") := by
  rcases r with ⟨n, l, ar, sc, pu, gl, pi, fa⟩
  cases n <;> cases l <;> cases ar <;> cases sc <;> cases pu <;> cases gl <;>
    simp [validateKemahResponse] <;> cases pi <;> cases fa <;> simp

/-- Witness for C10 at a raw record missing `price_items` and
`facilities`. -/
theorem kemah_response_required_and_defaults_witness :
    (validateKemahResponse rawSample).isSome = true ∧
      (⟨"Kuncen Camp", "Semarang", 4, ⟨1, 1⟩, "p", "g", [], ""⟩ :
          KemahResponse).price_items = [] ∧
      (⟨"Kuncen Camp", "Semarang", 4, ⟨1, 1⟩, "p", "g", [], ""⟩ :
          KemahResponse).facilities = "" := by
  have h := (kemah_response_required_and_defaults rawSample).2
    ⟨"Kuncen Camp", "Semarang", 4, ⟨1, 1⟩, "p", "g", [], ""⟩ (by decide)
  exact ⟨(kemah_response_required_and_defaults rawSample).1.mpr (by decide),
    h.2.2.1 rfl, h.2.2.2 rfl⟩

/-! ### C5 -/

theorem mem_joinMeta_iff {C : Corpus} {ranked : List (ℕ × Score)}
    {pr : Listing × Score} :
    pr ∈ joinMeta C ranked ↔
      ∃ j, (j, pr.2) ∈ ranked ∧
        C.meta.find? (fun L => L.id == j) = some pr.1 := by
  unfold joinMeta
  rw [List.mem_filterMap]
  constructor
  · rintro ⟨a, ha, hfa⟩
    rcases Option.map_eq_some'.mp hfa with ⟨L, hf, hL⟩
    subst hL
    exact ⟨a.1, by simpa using ha, hf⟩
  · rintro ⟨j, hj, hf⟩
    refine ⟨(j, pr.2), hj, ?_⟩
    rw [hf]
    simp

theorem find?_filter_eq {P : Listing → Bool} {i : ℕ} (L : Listing) :
    ∀ meta : List Listing, (meta.map Listing.id).Nodup →
      ((meta.filter P).find? (fun M => M.id == i) = some L ↔
        (meta.find? (fun M => M.id == i) = some L ∧ P L = true)) := by
  intro meta
  induction meta with
  | nil => intro _; simp
  | cons M ms ih =>
    intro hnd
    rw [List.map_cons, List.nodup_cons] at hnd
    obtain ⟨hM, hnd'⟩ := hnd
    by_cases hid : (M.id == i) = true
    · by_cases hP : P M = true
      · rw [List.filter_cons_of_pos hP,
            @List.find?_cons_of_pos _ (fun M => M.id == i) M (List.filter P ms) hid,
            @List.find?_cons_of_pos _ (fun M => M.id == i) M ms hid]
        constructor
        · intro h
          have hML : M = L := by simpa using h
          subst hML
          exact ⟨rfl, hP⟩
        · rintro ⟨h, _⟩
          exact h
      · rw [List.filter_cons_of_neg (by simpa using hP),
            @List.find?_cons_of_pos _ (fun M => M.id == i) M ms hid]
        constructor
        · intro h
          exfalso
          have hLmem : L ∈ ms.filter P := List.mem_of_find?_eq_some h
          have hLms : L ∈ ms := (List.mem_filter.mp hLmem).1
          have hLi : L.id = i := by simpa using List.find?_some h
          have hMi : M.id = i := by simpa using hid
          exact hM (List.mem_map.mpr ⟨L, hLms, by rw [hLi, hMi]⟩)
        · rintro ⟨h, hPL⟩
          exfalso
          have hML : M = L := by simpa using h
          rw [← hML] at hPL
          exact hP hPL
    · by_cases hP : P M = true
      · rw [List.filter_cons_of_pos hP,
            @List.find?_cons_of_neg _ (fun M => M.id == i) M (List.filter P ms) hid,
            @List.find?_cons_of_neg _ (fun M => M.id == i) M ms hid]
        exact ih hnd'
      · rw [List.filter_cons_of_neg (by simpa using hP),
            @List.find?_cons_of_neg _ (fun M => M.id == i) M ms hid]
        exact ih hnd'

theorem mem_regionRestrict_index {C : Corpus} {rgn : String} {p : ℕ × List String} :
    p ∈ (regionRestrict C rgn).index ↔
      p ∈ C.index ∧ ∃ L, C.meta.find? (fun M => M.id == p.1) = some L ∧
        regionMatch rgn L.location = true := by
  show p ∈ C.index.filter _ ↔ _
  rw [List.mem_filter]
  constructor
  · rintro ⟨hp, hcond⟩
    rcases hf : C.meta.find? (fun M => M.id == p.1) with _ | L
    · rw [hf] at hcond
      simp at hcond
    · rw [hf] at hcond
      exact ⟨hp, L, hf, by simpa using hcond⟩
  · rintro ⟨hp, L, hf, hm⟩
    refine ⟨hp, ?_⟩
    rw [hf]
    simpa using hm

theorem mem_survivingIds_some {C : Corpus} {ts : List String} {rgn : String}
    {i : ℕ} :
    i ∈ survivingIds C ts (some rgn) ↔
      ∃ d, (i, d) ∈ C.index ∧ (∃ t, t ∈ ts ∧ t ∈ d) ∧
        ∃ L, C.meta.find? (fun M => M.id == i) = some L ∧
          regionMatch rgn L.location = true := by
  unfold survivingIds applyRegion
  rw [List.mem_map]
  constructor
  · rintro ⟨pr, hpr, hid⟩
    obtain ⟨hjoin, hreg⟩ := List.mem_filter.mp hpr
    rcases mem_joinMeta_iff.mp hjoin with ⟨j, hrank, hfind⟩
    have hji : pr.1.id = j := by simpa using List.find?_some hfind
    have hij : j = i := by rw [← hji, hid]
    subst hij
    rcases mem_rankDocs_iff.mp hrank with ⟨hpos, d, hd, hs⟩
    refine ⟨d, hd, ?_, pr.1, hfind, by simpa using hreg⟩
    rw [hs] at hpos
    exact (score_num_pos_iff ts hd).mp hpos
  · rintro ⟨d, hd, hshared, L, hfind, hreg⟩
    refine ⟨(L, score C ts d), ?_, ?_⟩
    · apply List.mem_filter.mpr
      refine ⟨?_, by simpa using hreg⟩
      apply mem_joinMeta_iff.mpr
      refine ⟨i, ?_, hfind⟩
      apply mem_rankDocs_iff.mpr
      exact ⟨(score_num_pos_iff ts hd).mpr hshared, d, hd, rfl⟩
    · simpa using List.find?_some hfind

theorem mem_survivingIds_restrict {C : Corpus} {ts : List String} {rgn : String}
    {i : ℕ} (hnd : (C.meta.map Listing.id).Nodup) :
    i ∈ survivingIds (regionRestrict C rgn) ts Option.none ↔
      ∃ d, (i, d) ∈ C.index ∧ (∃ t, t ∈ ts ∧ t ∈ d) ∧
        ∃ L, C.meta.find? (fun M => M.id == i) = some L ∧
          regionMatch rgn L.location = true := by
  unfold survivingIds applyRegion
  rw [List.mem_map]
  constructor
  · rintro ⟨pr, hpr, hid⟩
    rcases mem_joinMeta_iff.mp hpr with ⟨j, hrank, hfind⟩
    have hji : pr.1.id = j := by simpa using List.find?_some hfind
    have hij : j = i := by rw [← hji, hid]
    subst hij
    rcases mem_rankDocs_iff.mp hrank with ⟨hpos, d, hd, hs⟩
    rcases mem_regionRestrict_index.mp hd with ⟨hdC, _, _, _⟩
    rw [hs] at hpos
    have hsh := (score_num_pos_iff ts hd).mp hpos
    have hsplit := (find?_filter_eq pr.1 C.meta hnd).mp hfind
    exact ⟨d, hdC, hsh, pr.1, hsplit.1, hsplit.2⟩
  · rintro ⟨d, hd, hshared, L, hfind, hreg⟩
    have hdR : (i, d) ∈ (regionRestrict C rgn).index :=
      mem_regionRestrict_index.mpr ⟨hd, L, hfind, hreg⟩
    refine ⟨(L, score (regionRestrict C rgn) ts d), ?_, ?_⟩
    · apply mem_joinMeta_iff.mpr
      refine ⟨i, ?_, ?_⟩
      · apply mem_rankDocs_iff.mpr
        exact ⟨(score_num_pos_iff ts hdR).mpr hshared, d, hdR, rfl⟩
      · exact (find?_filter_eq L C.meta hnd).mpr ⟨hfind, hreg⟩
    · simpa using List.find?_some hfind

/-- C5: region filtering commutes with ranking — for every query, region
and corpus with unique listing ids, the set of listing ids surviving
"rank, join, then filter by region" equals the set surviving "restrict the
corpus to the region first, then rank and join the survivors".  (Scores
may differ — restricting changes document frequencies — but the surviving
set is the same, which is what the spec asserts.) -/
theorem region_filter_commutes_with_ranking (C : Corpus) (ts : List String)
    (rgn : String) (hnd : (C.meta.map Listing.id).Nodup) (i : ℕ) :
    i ∈ survivingIds C ts (some rgn) ↔
      i ∈ survivingIds (regionRestrict C rgn) ts Option.none := by
  rw [mem_survivingIds_some, mem_survivingIds_restrict hnd]

/-- Witness for C5 on the sample corpus, region "jogja", listing id 2. -/
theorem region_filter_commutes_with_ranking_witness :
    2 ∈ survivingIds sampleCorpus ["kemah"] (some "jogja") ↔
      2 ∈ survivingIds (regionRestrict sampleCorpus "jogja") ["kemah"]
        Option.none :=
  region_filter_commutes_with_ranking sampleCorpus ["kemah"] "jogja" (by decide) 2
